import Mathlib

/-!
Shallow embedding of the noiseport-server acquisition pipeline.

Sources embedded here:
  * `src/app/services/slskd_service.py` — search-result data model,
    `group_files_by_album`, `filter_album_files_priority`,
    `find_best_album_match`, `_wait_for_search_completion`,
    `enqueue_download` (its outcome is modelled abstractly, see `PyErr`);
  * `src/app/api/downloads.py` — `background_download_album`, the
    orchestration that drives the request store;
  * `src/app/services/download_request_service.py` and
    `src/app/database/connection.py` — the `download_requests` table and
    `create_request`, `update_request_status`, `complete_request`,
    `get_all_requests`.

Python strings are embedded as `String` with character-level helpers
(`pyLower`, `pyEndsWith`, `pyContains`, `dirname`) mirroring `str.lower`,
`str.endswith`, the `in` operator and `posixpath.dirname`.  Python `None`
becomes `Option`, exceptions become explicit `Except`/sum results, and the
sqlite table becomes a list of rows in insertion order.  Request-store
writes are modelled as total operations (the spec treats every store
mutation as durable and non-failing).
-/

namespace Noiseport

/-- `str.lower()` restricted to the character-wise lowering the claims need. -/
def pyLower (s : String) : String := ⟨s.data.map Char.toLower⟩

/-- `str.endswith(suffix)`. -/
def pyEndsWith (s suffix : String) : Bool := suffix.data.isSuffixOf s.data

/-- Python's `needle in hay` substring test. -/
def pyContains (hay needle : String) : Bool :=
  (List.range (hay.data.length + 1)).any fun i => needle.data.isPrefixOf (hay.data.drop i)

/-- `posixpath.dirname`: take everything up to the last `/`, then strip
trailing slashes unless the head is empty or all slashes. -/
def dirname (p : String) : String :=
  let cs := p.data
  let i : Nat :=
    match cs.reverse.findIdx? (fun c => c = '/') with
    | none => 0
    | some k => cs.length - k
  let head := cs.take i
  if head.any (fun c => decide (c ≠ '/')) then
    ⟨(head.reverse.dropWhile (fun c => c = '/')).reverse⟩
  else ⟨head⟩

/-- `FileInfo` (`app/models/schemas.py`), restricted to the fields the
acquisition pipeline reads: path, size in bytes and audio bit-rate
(`None` when the peer did not report one). -/
structure FileInfo where
  filename : String
  size : Option Nat
  bit_rate : Option Nat
  deriving DecidableEq, Repr

/-- `UserFilesResponse`: one peer's listing. -/
structure UserFilesResponse where
  username : String
  files : List FileInfo
  deriving DecidableEq, Repr

/-- `SearchResult`, restricted to the field the orchestration reads. -/
structure SearchResult where
  users : List UserFilesResponse
  deriving DecidableEq, Repr

/-- `SlskdService.group_files_by_album`: fold the files into an
association list keyed by `os.path.dirname(file.filename)`; a Python dict
keeps keys in first-insertion order and `setdefault(...).append` appends,
which `addToGroups` mirrors. -/
def addToGroups (gs : List (String × List FileInfo)) (k : String) (f : FileInfo) :
    List (String × List FileInfo) :=
  match gs with
  | [] => [(k, [f])]
  | (k', fs) :: rest =>
      if k' = k then (k', fs ++ [f]) :: rest else (k', fs) :: addToGroups rest k f

def group_files_by_album (files : List FileInfo) : List (String × List FileInfo) :=
  files.foldl (fun gs f => addToGroups gs (dirname f.filename) f) []

/-- `f.filename.lower().endswith(".mp3") and f.bit_rate == 320`. -/
def isMp3_320 (f : FileInfo) : Bool :=
  pyEndsWith (pyLower f.filename) ".mp3" && f.bit_rate == some 320

/-- `f.filename.lower().endswith(".flac")`. -/
def isFlacFile (f : FileInfo) : Bool :=
  pyEndsWith (pyLower f.filename) ".flac"

/-- `SlskdService.filter_album_files_priority`. -/
def filter_album_files_priority (files : List FileInfo) : Option (List FileInfo) :=
  let mp3_320 := files.filter isMp3_320
  if mp3_320 ≠ [] then some mp3_320
  else
    let flac := files.filter isFlacFile
    if flac ≠ [] then some flac
    else none

/-- `sum(f.size or 0 for f in flist)`. -/
def sumSizes (fs : List FileInfo) : Nat := fs.foldl (fun acc f => acc + f.size.getD 0) 0

/-- Python's `max(groups, key=...)`: the first element attaining the
maximal key — a later element replaces the current best only when its key
is strictly greater. -/
def maxBySummedSize (g : List FileInfo) (rest : List (List FileInfo)) : List FileInfo :=
  rest.foldl (fun best x => if sumSizes best < sumSizes x then x else best) g

/-- The dict-iteration search for a directory key containing both the
artist and the album, case-insensitively (`find?` returns the first key in
insertion order, as the Python `for album_key in albums` loop does). -/
def findMatchingGroup (albums : List (String × List FileInfo)) (artist album : String) :
    Option (String × List FileInfo) :=
  albums.find? fun kv =>
    pyContains (pyLower kv.1) (pyLower artist) && pyContains (pyLower kv.1) (pyLower album)

/-- `SlskdService.find_best_album_match`, peer by peer.  Python's
`if matching_album_key:` is a *truthiness* test: it falls through to the
largest-summed-size fallback both when no key matched (`None`) and when
the first matching key is the empty string (root-level files, whose
`os.path.dirname` is `""`) — hence the `kv.1 = ""` branch.  The
`max(..., default=None)` and the `if album_files:` falsiness test are
kept (`none` / empty-list cases fall through to the next peer exactly as
the source does). -/
def find_best_album_match (users : List UserFilesResponse) (artist album : String) :
    Option (String × List FileInfo) :=
  match users with
  | [] => none
  | u :: rest =>
    if u.files = [] then find_best_album_match rest artist album
    else
      let albums := group_files_by_album u.files
      let fallback : Option (List FileInfo) :=
        match albums.map Prod.snd with
        | [] => none
        | g :: gs => some (maxBySummedSize g gs)
      let album_files : Option (List FileInfo) :=
        match findMatchingGroup albums artist album with
        | some kv => if kv.1 = "" then fallback else some kv.2
        | none => fallback
      match album_files with
      | none => find_best_album_match rest artist album
      | some fs =>
        if fs = [] then find_best_album_match rest artist album
        else
          match filter_album_files_priority fs with
          | some filtered => some (u.username, filtered)
          | none => find_best_album_match rest artist album

/-! ## The orchestration (`background_download_album`, `downloads.py`)

The two external calls that can raise — `search_album` and
`enqueue_download` — are modelled by their outcome in the run at hand:
an `Except PyErr` value.  `PyErr` lists the exception classes the
orchestration's `except` clauses distinguish (`app/core/exceptions.py`);
`enqueue_download` itself wraps every client failure in `DownloadError`
and otherwise returns `True`, so its genuine outcomes are `.ok true` and
`.error .downloadError`, but the embedding keeps the full space so the
`except` clauses are exercised on every input.  A store write is recorded
rather than performed; `create_download_metadata` swallows its own
exceptions and touches no store state, so it contributes nothing here. -/

/-- The exception classes `background_download_album` distinguishes. -/
inductive PyErr where
  | slskdConnectionError
  | searchTimeoutError
  | downloadError
  | otherError
  deriving DecidableEq, Repr

/-- The status each `except` clause of `background_download_album` writes. -/
def exceptStatus : PyErr → String
  | .slskdConnectionError => "connection_error"
  | .searchTimeoutError => "timeout"
  | .downloadError => "error"
  | .otherError => "error"

/-- One `DownloadRequestService.update_request_status` call: the status and
the optional fields supplied with it. -/
structure Write where
  status : String
  slskd_username : Option String
  file_count : Option Nat
  total_size : Option Nat
  deriving DecidableEq, Repr

/-- A status-only write (no optional fields supplied). -/
def mkW (st : String) : Write := ⟨st, none, none, none⟩

/-- `background_download_album` as the sequence of request-store writes the
run performs, given the outcome of the search call and of the enqueue
call.  Mirrors the `try`/`except` structure of `downloads.py:85-155`. -/
def background_download_album (sr : Except PyErr SearchResult)
    (enq : Except PyErr Bool) (artist album : String) : List Write :=
  match sr with
  | .error e => [mkW (exceptStatus e)]
  | .ok search_result =>
    if search_result.users = [] then [mkW "no_results"]
    else
      match find_best_album_match search_result.users artist album with
      | none => [mkW "no_match"]
      | some (slskd_username, files) =>
        let w1 : Write :=
          ⟨"downloading", some slskd_username, some files.length, some (sumSizes files)⟩
        match enq with
        | .ok true => [w1, mkW "enqueued"]
        | .ok false => [w1, mkW "failed"]
        | .error e => [w1, mkW (exceptStatus e)]

/-! ## The request store (`download_request_service.py`, `connection.py`)

The `download_requests` table is a list of rows in insertion order;
`AUTOINCREMENT` ids are `length + 1` (the core never deletes rows).
Timestamps are the ISO strings the service stores; sqlite compares them
as text, which on ISO-8601 strings is chronological order. -/

/-- One row of `download_requests` (schema of `connection.py:56-75`,
mirrored by `DownloadRequest.from_row`). -/
structure Row where
  id : Nat
  task_id : String
  artist : String
  album : String
  username : String
  vpn_ip : String
  status : String
  timestamp : String
  slskd_username : Option String
  file_count : Nat
  completed_files : Nat
  total_size : Nat
  album_directory : Option String
  completed_at : Option String
  deriving DecidableEq, Repr

/-- The insertion failure sqlite raises for a second row with the same
`task_id` (UNIQUE constraint) — the spec's `DuplicateTaskError`. -/
inductive StoreErr where
  | duplicateTaskError
  deriving DecidableEq, Repr

/-- `DownloadRequestService.create_request`: insert a fresh `pending` row
(the table's column defaults fill the remaining fields) and return it;
a duplicate `task_id` violates the UNIQUE constraint instead. -/
def create_request (s : List Row) (task_id artist album username vpn_ip now : String) :
    Except StoreErr (List Row × Row) :=
  if s.any (fun r => r.task_id = task_id) then .error .duplicateTaskError
  else
    let r : Row :=
      { id := s.length + 1, task_id := task_id, artist := artist, album := album
        username := username, vpn_ip := vpn_ip, status := "pending", timestamp := now
        slskd_username := none, file_count := 0, completed_files := 0, total_size := 0
        album_directory := none, completed_at := none }
    .ok (s ++ [r], r)

/-- The row update `update_request_status` performs on a matching row:
status always, each optional field only when supplied. -/
def applyUpdate (r : Row) (st : String) (su : Option String) (fc ts : Option Nat) : Row :=
  { r with
    status := st
    slskd_username := match su with | some v => some v | none => r.slskd_username
    file_count := fc.getD r.file_count
    total_size := ts.getD r.total_size }

/-- `DownloadRequestService.update_request_status`: `UPDATE ... WHERE
task_id = ?` over the whole table; the returned Bool is `rowcount > 0`. -/
def update_request_status (s : List Row) (task_id st : String)
    (su : Option String) (fc ts : Option Nat) : List Row × Bool :=
  (s.map fun r => if r.task_id = task_id then applyUpdate r st su fc ts else r,
   s.any fun r => r.task_id = task_id)

/-- `DownloadRequestService.complete_request`: the terminal-success write —
the only operation that sets `album_directory`, and it sets
`status = "completed"` in the same `UPDATE`. -/
def complete_request (s : List Row) (task_id album_directory : String)
    (completed_files : Nat) (now : String) : List Row × Bool :=
  (s.map fun r =>
      if r.task_id = task_id then
        { r with status := "completed", completed_files := completed_files
                 album_directory := some album_directory, completed_at := some now }
      else r,
   s.any fun r => r.task_id = task_id)

/-- sqlite's TEXT comparison (byte order; on the stored ISO timestamps it
is chronological order). -/
def lexLe : List Char → List Char → Bool
  | [], _ => true
  | _ :: _, [] => false
  | a :: as, b :: bs =>
    if a.toNat = b.toNat then lexLe as bs
    else decide (a.toNat < b.toNat)

/-- Newest-first order on rows: `ORDER BY timestamp DESC`. -/
def newerEq (a b : Row) : Prop := lexLe b.timestamp.data a.timestamp.data = true

instance : DecidableRel newerEq := fun a b =>
  inferInstanceAs (Decidable (lexLe b.timestamp.data a.timestamp.data = true))

/-- `DownloadRequestService.get_all_requests`: `ORDER BY timestamp DESC
LIMIT ? OFFSET ?` — sort, skip `offset`, take `limit`. -/
def get_all_requests (s : List Row) (limit offset : Nat) : List Row :=
  ((s.insertionSort newerEq).drop offset).take limit

/-- Apply one recorded orchestration write to the store. -/
def applyWrite (s : List Row) (task_id : String) (w : Write) : List Row :=
  (update_request_status s task_id w.status w.slskd_username w.file_count w.total_size).1

/-- Apply an orchestration's write sequence in order. -/
def applyWrites (s : List Row) (task_id : String) (ws : List Write) : List Row :=
  ws.foldl (fun s w => applyWrite s task_id w) s

/-- Request-store states reachable through the core's operations: creation
of a fresh request, one background orchestration run per still-`pending`
request (the run is scheduled at creation and is the only writer of its
row until it ends in a non-`pending` status), and the terminal-success
completion write. -/
inductive Reach : List Row → Prop where
  | init : Reach []
  | create {s s' : List Row} {r : Row} (tid artist album username vpn_ip now : String) :
      Reach s → create_request s tid artist album username vpn_ip now = .ok (s', r) →
      Reach s'
  | orch {s : List Row} (tid : String) (sr : Except PyErr SearchResult)
      (enq : Except PyErr Bool) (artist album : String) :
      Reach s → (∀ r ∈ s, r.task_id = tid → r.status = "pending") →
      Reach (applyWrites s tid (background_download_album sr enq artist album))
  | complete {s : List Row} (tid dir : String) (n : Nat) (now : String) :
      Reach s → Reach (complete_request s tid dir n now).1

/-! ## The search poll loop (`_wait_for_search_completion`)

Time is modelled in one-second ticks: each loop iteration sleeps one
second (or spends it in the failed `state` call), so the `while time.time()
- start_time < timeout` guard admits at most `timeout` iterations.  A poll
either yields the search state (status string plus the responses
accumulated so far) or raises — the `except` clause swallows the error and
keeps the previous `responses` value.  The `stop` call after the loop
affects nothing the function returns. -/

inductive PollResult (α : Type) where
  | state (status : String) (responses : List α)
  | raised

/-- The poll loop of `_wait_for_search_completion` (`slskd_service.py:131-147`):
`fuel` is the seconds remaining before the deadline. -/
def waitLoop {α : Type} (polls : Nat → PollResult α) : Nat → Nat → List α → List α
  | _, 0, acc => acc
  | t, fuel + 1, acc =>
    match polls t with
    | .state st rs => if st = "Completed" then rs else waitLoop polls (t + 1) fuel rs
    | .raised => waitLoop polls (t + 1) fuel acc

/-- `_wait_for_search_completion`: returns whatever responses accumulated,
whether or not the deadline was reached — the trailing
`if time.time() - start_time >= timeout: pass` raises nothing. -/
def wait_for_search_completion {α : Type} (polls : Nat → PollResult α) (timeout : Nat) :
    List α :=
  waitLoop polls 0 timeout []

/-- The spec's synchronous-path contract, stated for comparison: the same
poll loop, but exceeding the deadline before the backend reports
`Completed` raises `SearchTimeoutError` (`.error ()`) to the caller. -/
def waitRaisingLoop {α : Type} (polls : Nat → PollResult α) :
    Nat → Nat → List α → Except Unit (List α)
  | _, 0, _ => .error ()
  | t, fuel + 1, acc =>
    match polls t with
    | .state st rs => if st = "Completed" then .ok rs else waitRaisingLoop polls (t + 1) fuel rs
    | .raised => waitRaisingLoop polls (t + 1) fuel acc

def wait_raising_on_expiry {α : Type} (polls : Nat → PollResult α) (timeout : Nat) :
    Except Unit (List α) :=
  waitRaisingLoop polls 0 timeout []

/-! ## Spec-side definitions

Definitions written from the spec's and claims' words, to be compared
with the code-derived functions above (refinement-style claims). -/

/-- The largest-summed-size group, ties broken by iteration order. -/
def largestGroup (albums : List (String × List FileInfo)) : List FileInfo :=
  match albums.map Prod.snd with
  | [] => []
  | g :: gs => maxBySummedSize g gs

/-- The claim's candidate-group choice within one peer, exactly as the
claim words it: the first directory group whose key contains both artist
and album case-insensitively, otherwise the group with the largest
summed file size, ties broken by iteration order. -/
def chosenGroupSpec (albums : List (String × List FileInfo)) (artist album : String) :
    List FileInfo :=
  match findMatchingGroup albums artist album with
  | some kv => kv.2
  | none => largestGroup albums

/-- The Candidate Selector as the claim describes it: peers in input
order, a peer with no files is skipped, and the first peer whose chosen
group survives the quality filter wins. -/
def selectorSpec : List UserFilesResponse → String → String → Option (String × List FileInfo)
  | [], _, _ => none
  | u :: rest, artist, album =>
    if u.files = [] then selectorSpec rest artist album
    else
      match filter_album_files_priority (chosenGroupSpec (group_files_by_album u.files) artist album) with
      | some filtered => some (u.username, filtered)
      | none => selectorSpec rest artist album

/-- The candidate-group choice as amended by the truthiness
counterexample: a matched directory key is used only when it is
non-empty; a missing match or an empty-string first match falls back to
the largest-summed-size group. -/
def chosenGroupAmended (albums : List (String × List FileInfo)) (artist album : String) :
    List FileInfo :=
  match findMatchingGroup albums artist album with
  | some kv => if kv.1 = "" then largestGroup albums else kv.2
  | none => largestGroup albums

/-- The Candidate Selector under the amended group choice. -/
def selectorSpecAmended : List UserFilesResponse → String → String → Option (String × List FileInfo)
  | [], _, _ => none
  | u :: rest, artist, album =>
    if u.files = [] then selectorSpecAmended rest artist album
    else
      match filter_album_files_priority (chosenGroupAmended (group_files_by_album u.files) artist album) with
      | some filtered => some (u.username, filtered)
      | none => selectorSpecAmended rest artist album

/-- The orchestration's write sequence as the claim describes it: a raised
search error maps to its status, zero peers to `no_results`, no candidate
to `no_match`, and a chosen candidate to a `downloading` write carrying
peer/count/size followed by one terminal write decided by the enqueue
outcome. -/
def orchSpecWrites (sr : Except PyErr SearchResult) (enq : Except PyErr Bool)
    (artist album : String) : List Write :=
  match sr with
  | .error e => [mkW (exceptStatus e)]
  | .ok res =>
    if res.users = [] then [mkW "no_results"]
    else
      match find_best_album_match res.users artist album with
      | none => [mkW "no_match"]
      | some (peer, files) =>
        [⟨"downloading", some peer, some files.length, some (sumSizes files)⟩,
         match enq with
         | .ok true => mkW "enqueued"
         | .ok false => mkW "failed"
         | .error e => mkW (exceptStatus e)]

/-- The status of the final request-store write of a run. -/
def lastStatus (ws : List Write) : Option String := ws.getLast?.map Write.status

/-! ## Helper lemmas -/

theorem addToGroups_ne_nil (gs : List (String × List FileInfo)) (k : String) (f : FileInfo) :
    addToGroups gs k f ≠ [] := by
  cases gs with
  | nil => simp [addToGroups]
  | cons kv rest =>
    obtain ⟨k', fs⟩ := kv
    by_cases h : k' = k <;> simp [addToGroups, h]

theorem foldl_addToGroups_ne_nil (files : List FileInfo)
    (gs : List (String × List FileInfo)) (h : gs ≠ []) :
    files.foldl (fun gs f => addToGroups gs (dirname f.filename) f) gs ≠ [] := by
  induction files generalizing gs with
  | nil => exact h
  | cons f fs ih => exact ih _ (addToGroups_ne_nil _ _ _)

theorem group_files_ne_nil {files : List FileInfo} (h : files ≠ []) :
    group_files_by_album files ≠ [] := by
  cases files with
  | nil => exact absurd rfl h
  | cons f fs =>
    exact foldl_addToGroups_ne_nil fs _ (addToGroups_ne_nil [] _ _)

/-- The invariant `addToGroups` preserves: every group is non-empty, every
file in a group came from the processed files, and every file sits under
the group's directory key. -/
theorem addToGroups_inv {Q : FileInfo → Prop} {gs : List (String × List FileInfo)}
    (h : ∀ kv ∈ gs, ∀ f ∈ kv.2, Q f ∧ dirname f.filename = kv.1)
    {f : FileInfo} (hf : Q f) :
    ∀ kv ∈ addToGroups gs (dirname f.filename) f, ∀ g ∈ kv.2,
      Q g ∧ dirname g.filename = kv.1 := by
  induction gs with
  | nil =>
    intro kv hkv g hg
    simp only [addToGroups, List.mem_singleton] at hkv
    subst hkv
    simp only [List.mem_singleton] at hg
    subst hg
    exact ⟨hf, rfl⟩
  | cons kv0 rest ih =>
    obtain ⟨k', fs⟩ := kv0
    intro kv hkv g hg
    by_cases hk : k' = dirname f.filename
    · simp only [addToGroups, if_pos hk, List.mem_cons] at hkv
      rcases hkv with rfl | hkv
      · simp only [List.mem_append, List.mem_singleton] at hg
        rcases hg with hg | rfl
        · exact h (k', fs) (List.mem_cons_self _ _) g hg
        · exact ⟨hf, hk.symm⟩
      · exact h kv (List.mem_cons_of_mem _ hkv) g hg
    · simp only [addToGroups, if_neg hk, List.mem_cons] at hkv
      rcases hkv with rfl | hkv
      · exact h (k', fs) (List.mem_cons_self _ _) g hg
      · exact ih (fun kv h' => h kv (List.mem_cons_of_mem _ h')) kv hkv g hg

theorem foldl_groups_inv {Q : FileInfo → Prop} (files : List FileInfo)
    (gs : List (String × List FileInfo))
    (hgs : ∀ kv ∈ gs, ∀ f ∈ kv.2, Q f ∧ dirname f.filename = kv.1)
    (hfiles : ∀ f ∈ files, Q f) :
    ∀ kv ∈ files.foldl (fun gs f => addToGroups gs (dirname f.filename) f) gs,
      ∀ f ∈ kv.2, Q f ∧ dirname f.filename = kv.1 := by
  induction files generalizing gs with
  | nil => exact hgs
  | cons f fs ih =>
    exact ih _ (addToGroups_inv hgs (hfiles f (List.mem_cons_self _ _)))
      (fun g hg => hfiles g (List.mem_cons_of_mem _ hg))

/-- Every file of a directory group of `group_files_by_album files` is one
of `files` and sits under the group's key. -/
theorem group_files_spec (files : List FileInfo) :
    ∀ kv ∈ group_files_by_album files, ∀ f ∈ kv.2,
      f ∈ files ∧ dirname f.filename = kv.1 :=
  foldl_groups_inv files [] (by simp) (fun _ hf => hf)

theorem addToGroups_snd_ne_nil {gs : List (String × List FileInfo)} (k : String)
    (f : FileInfo) (hinv : ∀ kv ∈ gs, kv.2 ≠ []) :
    ∀ kv ∈ addToGroups gs k f, kv.2 ≠ [] := by
  induction gs with
  | nil =>
    intro kv hkv
    simp only [addToGroups, List.mem_singleton] at hkv
    subst hkv
    simp
  | cons kv0 rest ih =>
    obtain ⟨k', fs⟩ := kv0
    intro kv hkv
    by_cases hk : k' = k
    · simp only [addToGroups, if_pos hk, List.mem_cons] at hkv
      rcases hkv with rfl | hkv
      · simp
      · exact hinv kv (List.mem_cons_of_mem _ hkv)
    · simp only [addToGroups, if_neg hk, List.mem_cons] at hkv
      rcases hkv with rfl | hkv
      · exact hinv _ (List.mem_cons_self _ _)
      · exact ih (fun kv h' => hinv kv (List.mem_cons_of_mem _ h')) kv hkv

theorem foldl_groups_snd_ne_nil (l : List FileInfo) (gs : List (String × List FileInfo))
    (h : ∀ kv ∈ gs, kv.2 ≠ []) :
    ∀ kv ∈ l.foldl (fun gs f => addToGroups gs (dirname f.filename) f) gs, kv.2 ≠ [] := by
  induction l generalizing gs with
  | nil => exact h
  | cons f fs ih => exact ih _ (addToGroups_snd_ne_nil _ _ h)

/-- Groups of `group_files_by_album` are never empty. -/
theorem group_files_snd_ne_nil (files : List FileInfo) :
    ∀ kv ∈ group_files_by_album files, kv.2 ≠ [] :=
  foldl_groups_snd_ne_nil files [] (by simp)

/-- Python's first-maximum `max`: the result is one of the candidates. -/
theorem maxBySummedSize_mem (g : List FileInfo) (gs : List (List FileInfo)) :
    maxBySummedSize g gs ∈ g :: gs := by
  unfold maxBySummedSize
  induction gs generalizing g with
  | nil => exact List.mem_singleton.mpr rfl
  | cons x xs ih =>
    simp only [List.foldl_cons]
    by_cases h : sumSizes g < sumSizes x
    · rw [if_pos h]
      rcases List.mem_cons.mp (ih x) with h' | h'
      · rw [h']
        exact List.mem_cons_of_mem _ (List.mem_cons_self _ _)
      · exact List.mem_cons_of_mem _ (List.mem_cons_of_mem _ h')
    · rw [if_neg h]
      rcases List.mem_cons.mp (ih g) with h' | h'
      · rw [h']
        exact List.mem_cons_self _ _
      · exact List.mem_cons_of_mem _ (List.mem_cons_of_mem _ h')

/-- What the quality filter returns is a non-empty subset of its input. -/
theorem filter_priority_subset {fs out : List FileInfo}
    (h : filter_album_files_priority fs = some out) :
    out ≠ [] ∧ ∀ f ∈ out, f ∈ fs := by
  unfold filter_album_files_priority at h
  by_cases h1 : fs.filter isMp3_320 ≠ []
  · simp only [if_pos h1] at h
    cases h
    exact ⟨h1, fun f hf => List.mem_of_mem_filter hf⟩
  · simp only [if_neg h1] at h
    by_cases h2 : fs.filter isFlacFile ≠ []
    · simp only [if_pos h2] at h
      cases h
      exact ⟨h2, fun f hf => List.mem_of_mem_filter hf⟩
    · simp only [if_neg h2] at h
      cases h

/-- A name ending in `.mp3` does not end in `.flac`. -/
theorem mp3_not_flac {s : String} (h : pyEndsWith s ".mp3" = true) :
    pyEndsWith s ".flac" = false := by
  by_contra hne
  rw [Bool.not_eq_false] at hne
  have h1 : ('.' :: 'm' :: 'p' :: '3' :: []) <:+ s.data := List.isSuffixOf_iff_suffix.mp h
  have h2 : ('.' :: 'f' :: 'l' :: 'a' :: 'c' :: []) <:+ s.data := List.isSuffixOf_iff_suffix.mp hne
  obtain ⟨t1, e1⟩ := h1
  obtain ⟨t2, e2⟩ := h2
  have g1 : s.data.getLast? = some '3' := by rw [← e1]; simp [List.getLast?_append]
  have g2 : s.data.getLast? = some 'c' := by rw [← e2]; simp [List.getLast?_append]
  rw [g1] at g2
  exact absurd (Option.some.inj g2) (by decide)

/-- The largest-summed-size group of a non-empty grouping is the second
component of one of its groups, hence non-empty. -/
theorem max_group_ne_nil {files : List FileInfo} {kv0 : String × List FileInfo}
    {rest' : List (String × List FileInfo)}
    (halbs : group_files_by_album files = kv0 :: rest') :
    maxBySummedSize kv0.2 (rest'.map Prod.snd) ≠ [] := by
  have hmem : maxBySummedSize kv0.2 (rest'.map Prod.snd) ∈ (kv0 :: rest').map Prod.snd := by
    rw [List.map_cons]
    exact maxBySummedSize_mem _ _
  obtain ⟨kv, hkv, hkv2⟩ := List.mem_map.mp hmem
  rw [← hkv2]
  exact group_files_snd_ne_nil files kv (by rw [halbs]; exact hkv)

/-! ## Claim theorems -/

/-- C3 counterexample: at `artist = ""`, `album = ""` with a root-level
mp3 and a larger directory of flacs, the first matching directory key is
the empty string; the claim's selector uses that matched group (the mp3)
while the code's truthiness test `if matching_album_key:` rejects the
empty key and falls back to the largest-summed-size group (the flac). -/
theorem c3_selectorSpec_counterexample :
    find_best_album_match
        [⟨"peer1", [⟨"a.mp3", some 1, some 320⟩, ⟨"dir/b.flac", some 100, none⟩]⟩] "" ""
      = some ("peer1", [⟨"dir/b.flac", some 100, none⟩]) ∧
    selectorSpec
        [⟨"peer1", [⟨"a.mp3", some 1, some 320⟩, ⟨"dir/b.flac", some 100, none⟩]⟩] "" ""
      = some ("peer1", [⟨"a.mp3", some 1, some 320⟩]) ∧
    find_best_album_match
        [⟨"peer1", [⟨"a.mp3", some 1, some 320⟩, ⟨"dir/b.flac", some 100, none⟩]⟩] "" ""
      ≠ selectorSpec
        [⟨"peer1", [⟨"a.mp3", some 1, some 320⟩, ⟨"dir/b.flac", some 100, none⟩]⟩] "" "" := by
  decide

/-- C3 as amended: per peer with a non-empty file list, a matched
directory key is used only when it is non-empty (Python's truthiness
test); otherwise — no match, or an empty-string first match — the
largest-summed-size group is chosen, ties by iteration order; peers are
tried in input order and the first whose chosen group survives the
quality filter is returned, else `none`.  Formally:
`find_best_album_match` equals the amended selector. -/
theorem c3_find_best_album_match_eq_selectorSpecAmended :
    ∀ (users : List UserFilesResponse) (artist album : String),
      find_best_album_match users artist album = selectorSpecAmended users artist album := by
  intro users
  induction users with
  | nil => intro artist album; rfl
  | cons u rest ih =>
    intro artist album
    by_cases hf : u.files = []
    · simp only [find_best_album_match, selectorSpecAmended, if_pos hf]
      exact ih artist album
    · simp only [find_best_album_match, selectorSpecAmended, if_neg hf]
      cases hm : findMatchingGroup (group_files_by_album u.files) artist album with
      | some kv =>
        by_cases hkey : kv.1 = ""
        · cases halbs : group_files_by_album u.files with
          | nil => exact absurd halbs (group_files_ne_nil hf)
          | cons kv0 rest' =>
            rw [halbs] at hm
            have hne := max_group_ne_nil halbs
            simp only [halbs, hm, chosenGroupAmended, largestGroup, List.map_cons,
              if_pos hkey, if_neg hne]
            cases hfil : filter_album_files_priority (maxBySummedSize kv0.2 (rest'.map Prod.snd)) with
            | some filtered => simp [hfil]
            | none => simp [hfil, ih artist album]
        · have hne : kv.2 ≠ [] :=
            group_files_snd_ne_nil u.files kv (List.mem_of_find?_eq_some hm)
          simp only [hm, chosenGroupAmended, if_neg hkey, if_neg hne]
          cases hfil : filter_album_files_priority kv.2 with
          | some filtered => simp [hfil]
          | none => simp [hfil, ih artist album]
      | none =>
        cases halbs : group_files_by_album u.files with
        | nil => exact absurd halbs (group_files_ne_nil hf)
        | cons kv0 rest' =>
          rw [halbs] at hm
          have hne := max_group_ne_nil halbs
          simp only [halbs, hm, chosenGroupAmended, largestGroup, List.map_cons, if_neg hne]
          cases hfil : filter_album_files_priority (maxBySummedSize kv0.2 (rest'.map Prod.snd)) with
          | some filtered => simp [hfil]
          | none => simp [hfil, ih artist album]

/-- C2: the quality filter returns exactly the case-insensitive
`.mp3`-with-bit-rate-320 subset when that is non-empty, else exactly the
`.flac` subset when that is non-empty, else `none`; a non-empty mp3 tier
is returned pure — no member of it is a flac file. -/
theorem c2_filter_album_files_priority_tiers (files : List FileInfo) :
    (files.filter isMp3_320 ≠ [] →
        filter_album_files_priority files = some (files.filter isMp3_320) ∧
        ∀ f ∈ files.filter isMp3_320, isMp3_320 f = true ∧ isFlacFile f = false) ∧
    (files.filter isMp3_320 = [] → files.filter isFlacFile ≠ [] →
        filter_album_files_priority files = some (files.filter isFlacFile)) ∧
    (files.filter isMp3_320 = [] → files.filter isFlacFile = [] →
        filter_album_files_priority files = none) := by
  refine ⟨fun h1 => ⟨?_, ?_⟩, fun h1 h2 => ?_, fun h1 h2 => ?_⟩
  · simp [filter_album_files_priority, h1]
  · intro f hf
    have hp := List.of_mem_filter hf
    refine ⟨hp, ?_⟩
    have hmp3 : pyEndsWith (pyLower f.filename) ".mp3" = true := by
      simp only [isMp3_320, Bool.and_eq_true] at hp
      exact hp.1
    unfold isFlacFile
    exact mp3_not_flac hmp3
  · simp [filter_album_files_priority, h1, h2]
  · simp [filter_album_files_priority, h1, h2]

/-- Witness for C2: a group holding two 320kbps mp3s, a flac and a 128kbps
mp3 yields exactly the two 320kbps mp3s, and the returned tier holds no
flac file. -/
theorem c2_filter_album_files_priority_tiers_witness :
    filter_album_files_priority
        [⟨"a/t1.mp3", some 1, some 320⟩, ⟨"a/t2.flac", some 2, none⟩,
         ⟨"a/t3.MP3", some 3, some 320⟩, ⟨"a/t4.mp3", some 4, some 128⟩]
      = some [⟨"a/t1.mp3", some 1, some 320⟩, ⟨"a/t3.MP3", some 3, some 320⟩] ∧
    isFlacFile ⟨"a/t1.mp3", some 1, some 320⟩ = false := by
  have h := (c2_filter_album_files_priority_tiers
    [⟨"a/t1.mp3", some 1, some 320⟩, ⟨"a/t2.flac", some 2, none⟩,
     ⟨"a/t3.MP3", some 3, some 320⟩, ⟨"a/t4.mp3", some 4, some 128⟩]).1 (by decide)
  exact ⟨h.1.trans (by decide), (h.2 ⟨"a/t1.mp3", some 1, some 320⟩ (by decide)).2⟩

/-- A surviving quality-filtered group of one peer: non-empty, drawn from
that peer's files, all under one directory key. -/
theorem peer_group_result {u : UserFilesResponse} {kv : String × List FileInfo}
    (hkv : kv ∈ group_files_by_album u.files) {filtered : List FileInfo}
    (hfil : filter_album_files_priority kv.2 = some filtered) :
    filtered ≠ [] ∧ (∀ f ∈ filtered, f ∈ u.files) ∧
    (∀ f ∈ filtered, ∀ g ∈ filtered, dirname f.filename = dirname g.filename) := by
  obtain ⟨hne, hsub⟩ := filter_priority_subset hfil
  have hspec := group_files_spec u.files kv hkv
  refine ⟨hne, fun f hf => (hspec f (hsub f hf)).1, fun f hf g hg => ?_⟩
  rw [(hspec f (hsub f hf)).2, (hspec g (hsub g hg)).2]

/-- C10: a returned candidate is a non-empty list of files, all of them
offered by the single matched peer and all sharing one parent directory
path. -/
theorem c10_selector_result_single_source :
    ∀ (users : List UserFilesResponse) (artist album username : String)
      (files : List FileInfo),
      find_best_album_match users artist album = some (username, files) →
      files ≠ [] ∧
      (∃ u ∈ users, u.username = username ∧ ∀ f ∈ files, f ∈ u.files) ∧
      (∀ f ∈ files, ∀ g ∈ files, dirname f.filename = dirname g.filename) := by
  intro users
  induction users with
  | nil =>
    intro artist album username files h
    exact absurd h (by simp [find_best_album_match])
  | cons u rest ih =>
    intro artist album username files h
    by_cases hf : u.files = []
    · simp only [find_best_album_match, if_pos hf] at h
      obtain ⟨hne, ⟨u', hu', hrest⟩, hdir⟩ := ih artist album username files h
      exact ⟨hne, ⟨u', List.mem_cons_of_mem _ hu', hrest⟩, hdir⟩
    · simp only [find_best_album_match, if_neg hf] at h
      cases hm : findMatchingGroup (group_files_by_album u.files) artist album with
      | some kv =>
        simp only [hm] at h
        by_cases hkey : kv.1 = ""
        · rw [if_pos hkey] at h
          cases halbs : group_files_by_album u.files with
          | nil => exact absurd halbs (group_files_ne_nil hf)
          | cons kv0 rest' =>
            rw [halbs, List.map_cons] at h
            have hmem : maxBySummedSize kv0.2 (rest'.map Prod.snd)
                ∈ (kv0 :: rest').map Prod.snd := by
              rw [List.map_cons]
              exact maxBySummedSize_mem kv0.2 (rest'.map Prod.snd)
            obtain ⟨kvm, hkvm', hkvm2⟩ := List.mem_map.mp hmem
            have hkvm : kvm ∈ group_files_by_album u.files := by rw [halbs]; exact hkvm'
            have hne : maxBySummedSize kv0.2 (rest'.map Prod.snd) ≠ [] := by
              rw [← hkvm2]
              exact group_files_snd_ne_nil u.files kvm hkvm
            simp only [if_neg hne] at h
            cases hfil : filter_album_files_priority (maxBySummedSize kv0.2 (rest'.map Prod.snd)) with
            | some filtered =>
              rw [hfil] at h
              simp only [Option.some.injEq, Prod.mk.injEq] at h
              obtain ⟨hu, hfi⟩ := h
              subst hu hfi
              obtain ⟨h1, h2, h3⟩ := peer_group_result hkvm (by rw [hkvm2]; exact hfil)
              exact ⟨h1, ⟨u, List.mem_cons_self _ _, rfl, h2⟩, h3⟩
            | none =>
              rw [hfil] at h
              obtain ⟨hne', ⟨u', hu', hrest⟩, hdir⟩ := ih artist album username files h
              exact ⟨hne', ⟨u', List.mem_cons_of_mem _ hu', hrest⟩, hdir⟩
        · rw [if_neg hkey] at h
          have hkv : kv ∈ group_files_by_album u.files := List.mem_of_find?_eq_some hm
          have hne : kv.2 ≠ [] := group_files_snd_ne_nil u.files kv hkv
          simp only [if_neg hne] at h
          cases hfil : filter_album_files_priority kv.2 with
          | some filtered =>
            rw [hfil] at h
            simp only [Option.some.injEq, Prod.mk.injEq] at h
            obtain ⟨hu, hfi⟩ := h
            subst hu hfi
            obtain ⟨h1, h2, h3⟩ := peer_group_result hkv hfil
            exact ⟨h1, ⟨u, List.mem_cons_self _ _, rfl, h2⟩, h3⟩
          | none =>
            rw [hfil] at h
            obtain ⟨hne', ⟨u', hu', hrest⟩, hdir⟩ := ih artist album username files h
            exact ⟨hne', ⟨u', List.mem_cons_of_mem _ hu', hrest⟩, hdir⟩
      | none =>
        rw [hm] at h
        cases halbs : group_files_by_album u.files with
        | nil => exact absurd halbs (group_files_ne_nil hf)
        | cons kv0 rest' =>
          rw [halbs, List.map_cons] at h
          have hmem : maxBySummedSize kv0.2 (rest'.map Prod.snd) ∈ (kv0 :: rest').map Prod.snd := by
            rw [List.map_cons]
            exact maxBySummedSize_mem kv0.2 (rest'.map Prod.snd)
          obtain ⟨kv, hkv', hkv2⟩ := List.mem_map.mp hmem
          have hkv : kv ∈ group_files_by_album u.files := by rw [halbs]; exact hkv'
          have hne : maxBySummedSize kv0.2 (rest'.map Prod.snd) ≠ [] := by
            rw [← hkv2]
            exact group_files_snd_ne_nil u.files kv hkv
          simp only [if_neg hne] at h
          cases hfil : filter_album_files_priority (maxBySummedSize kv0.2 (rest'.map Prod.snd)) with
          | some filtered =>
            rw [hfil] at h
            simp only [Option.some.injEq, Prod.mk.injEq] at h
            obtain ⟨hu, hfi⟩ := h
            subst hu hfi
            obtain ⟨h1, h2, h3⟩ := peer_group_result hkv (by rw [hkv2]; exact hfil)
            exact ⟨h1, ⟨u, List.mem_cons_self _ _, rfl, h2⟩, h3⟩
          | none =>
            rw [hfil] at h
            obtain ⟨hne', ⟨u', hu', hrest⟩, hdir⟩ := ih artist album username files h
            exact ⟨hne', ⟨u', List.mem_cons_of_mem _ hu', hrest⟩, hdir⟩

/-- Witness for C10: on a concrete two-directory listing the selector
returns a non-empty single-directory slice of the one peer's files. -/
theorem c10_selector_result_single_source_witness :
    ([⟨"Pink Floyd/The Wall/01.mp3", some 9, some 320⟩] : List FileInfo) ≠ [] ∧
    (∃ u ∈ [UserFilesResponse.mk "peer1"
        [⟨"Other/X/t.flac", some 50, none⟩, ⟨"Pink Floyd/The Wall/01.mp3", some 9, some 320⟩]],
      u.username = "peer1" ∧
      ∀ f ∈ ([⟨"Pink Floyd/The Wall/01.mp3", some 9, some 320⟩] : List FileInfo), f ∈ u.files) ∧
    (∀ f ∈ ([⟨"Pink Floyd/The Wall/01.mp3", some 9, some 320⟩] : List FileInfo),
      ∀ g ∈ ([⟨"Pink Floyd/The Wall/01.mp3", some 9, some 320⟩] : List FileInfo),
      dirname f.filename = dirname g.filename) :=
  c10_selector_result_single_source
    [UserFilesResponse.mk "peer1"
      [⟨"Other/X/t.flac", some 50, none⟩, ⟨"Pink Floyd/The Wall/01.mp3", some 9, some 320⟩]]
    "Pink Floyd" "The Wall" "peer1"
    [⟨"Pink Floyd/The Wall/01.mp3", some 9, some 320⟩] (by decide)

/-- C1: every orchestration run terminates with a non-empty write
sequence whose statuses follow the claim's mapping — raised search errors
map to `connection_error`/`timeout`/`error`, zero peers to `no_results`,
no candidate to `no_match`, and a chosen candidate to `downloading`
followed by the enqueue outcome's terminal status.  Formally the code's
write sequence equals the one written from the claim, and no path writes
nothing. -/
theorem c1_background_download_album_always_writes (sr : Except PyErr SearchResult)
    (enq : Except PyErr Bool) (artist album : String) :
    background_download_album sr enq artist album = orchSpecWrites sr enq artist album ∧
    background_download_album sr enq artist album ≠ [] := by
  constructor
  · cases sr with
    | error e => rfl
    | ok res =>
      by_cases h : res.users = []
      · simp [background_download_album, orchSpecWrites, h]
      · simp only [background_download_album, orchSpecWrites, if_neg h]
        cases find_best_album_match res.users artist album with
        | none => rfl
        | some p =>
          obtain ⟨u, fs⟩ := p
          cases enq with
          | error e => rfl
          | ok b => cases b <;> rfl
  · cases sr with
    | error e => simp [background_download_album]
    | ok res =>
      by_cases h : res.users = []
      · simp [background_download_album, h]
      · simp only [background_download_album, if_neg h]
        cases find_best_album_match res.users artist album with
        | none => simp
        | some p =>
          obtain ⟨u, fs⟩ := p
          cases enq with
          | error e => simp
          | ok b => cases b <;> simp

/-- C4 (code versus spec): when every poll within the deadline reports the
search still in progress, `_wait_for_search_completion` returns the
accumulated responses normally — the trailing deadline check is `pass` —
while the spec's synchronous contract raises `SearchTimeoutError`
(`.error ()`) on the same input. -/
theorem c4_deadline_returns_instead_of_raising :
    wait_for_search_completion (fun _ => PollResult.state "InProgress" [7]) 5 = [7] ∧
    wait_raising_on_expiry (fun _ => PollResult.state "InProgress" [7]) 5 = .error () :=
  ⟨rfl, rfl⟩

/-- C5 (code behaviour at the failing input): with a candidate chosen and
the enqueue call failing (`enqueue_download` wraps every client failure
in `DownloadError` and never returns `False`), the run's statuses are
`downloading` then `error` — the `failed` branch of `downloads.py:142`
is not reached. -/
theorem c5_enqueue_failure_records_error :
    (background_download_album
        (.ok ⟨[⟨"peer1", [⟨"Pink Floyd/The Wall/01.mp3", some 9, some 320⟩]⟩]⟩)
        (.error .downloadError) "Pink Floyd" "The Wall").map Write.status
      = ["downloading", "error"] := by decide

/-- Corresponding elements of a list zipped with its own map. -/
theorem mem_zip_map {α β : Type} (g : α → β) (s : List α) :
    ∀ p ∈ s.zip (s.map g), p.2 = g p.1 := by
  induction s with
  | nil => simp
  | cons x xs ih =>
    intro p hp
    simp only [List.map_cons, List.zip_cons_cons, List.mem_cons] at hp
    rcases hp with rfl | hp
    · rfl
    · exact ih p hp

/-- C6: `create_request` fails with the duplicate-task error when a row
with the task id exists, and otherwise appends exactly one new `pending`
row whose audit fields equal the supplied inputs. -/
theorem c6_create_request_pending_or_duplicate (s : List Row)
    (tid a b u ip now : String) :
    ((∃ r ∈ s, r.task_id = tid) →
        create_request s tid a b u ip now = .error .duplicateTaskError) ∧
    ((∀ r ∈ s, r.task_id ≠ tid) → ∃ row : Row,
        create_request s tid a b u ip now = .ok (s ++ [row], row) ∧
        row.status = "pending" ∧ row.task_id = tid ∧ row.artist = a ∧ row.album = b ∧
        row.username = u ∧ row.vpn_ip = ip ∧ row.timestamp = now ∧
        row.album_directory = none ∧ row.completed_at = none) := by
  constructor
  · rintro ⟨r, hr, htid⟩
    have hany : s.any (fun r => r.task_id = tid) = true :=
      List.any_eq_true.mpr ⟨r, hr, by simp [htid]⟩
    simp [create_request, hany]
  · intro h
    have hany : s.any (fun r => r.task_id = tid) = false := by
      rw [Bool.eq_false_iff]
      intro hc
      obtain ⟨r, hr, htid⟩ := List.any_eq_true.mp hc
      exact h r hr (by simpa using htid)
    exact ⟨{ id := s.length + 1, task_id := tid, artist := a, album := b, username := u,
             vpn_ip := ip, status := "pending", timestamp := now, slskd_username := none,
             file_count := 0, completed_files := 0, total_size := 0,
             album_directory := none, completed_at := none },
           by simp [create_request, hany], rfl, rfl, rfl, rfl, rfl, rfl, rfl, rfl, rfl⟩

/-- A row used by concrete store scenarios. -/
def rowA : Row :=
  { id := 1, task_id := "t1", artist := "A", album := "B", username := "alice"
    vpn_ip := "ip1", status := "pending", timestamp := "2024-01-01T00:00:00"
    slskd_username := none, file_count := 0, completed_files := 0, total_size := 0
    album_directory := none, completed_at := none }

/-- Witness for C6: creating into an empty store yields a `pending` row;
creating the same task id again is refused. -/
theorem c6_create_request_witness :
    (∃ row : Row, create_request [] "t1" "A" "B" "alice" "ip1" "2024-01-01T00:00:00"
        = .ok ([row], row) ∧ row.status = "pending" ∧ row.artist = "A") ∧
    create_request [rowA] "t1" "A2" "B2" "bob" "ip2" "ts2" = .error .duplicateTaskError := by
  have h1 := c6_create_request_pending_or_duplicate [] "t1" "A" "B" "alice" "ip1"
    "2024-01-01T00:00:00"
  have h2 := c6_create_request_pending_or_duplicate [rowA] "t1" "A2" "B2" "bob" "ip2" "ts2"
  obtain ⟨row, heq, hst, _, hart, _⟩ := h1.2 (by simp)
  exact ⟨⟨row, heq, hst, hart⟩, h2.1 ⟨rowA, List.mem_singleton.mpr rfl, rfl⟩⟩

/-- C8: `update_request_status` touches only the status and the supplied
optional fields of the matching row, leaves every other field and every
other row unchanged, reports whether a row matched, and is idempotent
when repeated with the same status and no optional fields. -/
theorem c8_update_request_status_frame (s : List Row) (tid st : String)
    (su : Option String) (fc ts : Option Nat) :
    ((update_request_status s tid st su fc ts).2 = true ↔ ∃ r ∈ s, r.task_id = tid) ∧
    (update_request_status s tid st su fc ts).1.length = s.length ∧
    (∀ p ∈ s.zip (update_request_status s tid st su fc ts).1,
      p.2.task_id = p.1.task_id ∧ p.2.artist = p.1.artist ∧ p.2.album = p.1.album ∧
      p.2.username = p.1.username ∧ p.2.vpn_ip = p.1.vpn_ip ∧
      p.2.timestamp = p.1.timestamp ∧ p.2.id = p.1.id ∧
      p.2.completed_files = p.1.completed_files ∧
      p.2.album_directory = p.1.album_directory ∧ p.2.completed_at = p.1.completed_at ∧
      (p.1.task_id ≠ tid → p.2 = p.1) ∧
      (p.1.task_id = tid → p.2.status = st ∧
        (su = none → p.2.slskd_username = p.1.slskd_username) ∧
        (∀ v, su = some v → p.2.slskd_username = some v) ∧
        (fc = none → p.2.file_count = p.1.file_count) ∧
        (∀ n, fc = some n → p.2.file_count = n) ∧
        (ts = none → p.2.total_size = p.1.total_size) ∧
        (∀ n, ts = some n → p.2.total_size = n))) ∧
    (update_request_status (update_request_status s tid st none none none).1
        tid st none none none).1
      = (update_request_status s tid st none none none).1 := by
  refine ⟨?_, ?_, ?_, ?_⟩
  · simp [update_request_status, List.any_eq_true]
  · simp [update_request_status]
  · intro p hp
    obtain ⟨r1, r2⟩ := p
    simp only [update_request_status] at hp
    have h2 := mem_zip_map
      (fun r => if r.task_id = tid then applyUpdate r st su fc ts else r) s (r1, r2) hp
    simp only at h2
    subst h2
    by_cases htid : r1.task_id = tid
    · rw [if_pos htid]
      refine ⟨rfl, rfl, rfl, rfl, rfl, rfl, rfl, rfl, rfl, rfl,
        fun hne => absurd htid hne, fun _ => ⟨rfl, ?_, ?_, ?_, ?_, ?_, ?_⟩⟩
      · intro hsu; subst hsu; rfl
      · intro v hv; subst hv; rfl
      · intro hfc; subst hfc; rfl
      · intro n hn; subst hn; rfl
      · intro hts; subst hts; rfl
      · intro n hn; subst hn; rfl
    · rw [if_neg htid]
      exact ⟨rfl, rfl, rfl, rfl, rfl, rfl, rfl, rfl, rfl, rfl,
        fun _ => rfl, fun h => absurd h htid⟩
  · simp only [update_request_status, List.map_map]
    induction s with
    | nil => rfl
    | cons r rs ih =>
      simp only [List.map_cons, List.cons.injEq]
      refine ⟨?_, ih⟩
      simp only [Function.comp_apply]
      by_cases h : r.task_id = tid
      · rw [if_pos h]
        have h2 : (applyUpdate r st none none none).task_id = tid := h
        rw [if_pos h2]
        rfl
      · rw [if_neg h, if_neg h]

/-- Witness for C8: updating the one matching row reports `true`, keeps
`completed_at`, and sets the status. -/
theorem c8_update_request_status_frame_witness :
    (update_request_status [rowA] "t1" "no_results" none none none).2 = true ∧
    ({ rowA with status := "no_results" } : Row).completed_at = rowA.completed_at ∧
    ({ rowA with status := "no_results" } : Row).status = "no_results" := by
  have h := c8_update_request_status_frame [rowA] "t1" "no_results" none none none
  obtain ⟨hiff, -, hframe, -⟩ := h
  obtain ⟨-, -, -, -, -, -, -, -, -, hcompleted, -, heq⟩ :=
    hframe (rowA, { rowA with status := "no_results" }) (by decide)
  exact ⟨hiff.mpr ⟨rowA, List.mem_singleton.mpr rfl, rfl⟩, hcompleted, (heq rfl).1⟩

theorem lexLe_total : ∀ as bs : List Char, lexLe as bs = true ∨ lexLe bs as = true := by
  intro as
  induction as with
  | nil => intro bs; left; rfl
  | cons a as ih =>
    intro bs
    cases bs with
    | nil => right; rfl
    | cons b bs =>
      by_cases h : a.toNat = b.toNat
      · simp only [lexLe, if_pos h, if_pos h.symm]
        exact ih bs
      · rcases Nat.lt_or_ge a.toNat b.toNat with hlt | hge
        · left
          simp [lexLe, if_neg h, hlt]
        · right
          have hlt : b.toNat < a.toNat := lt_of_le_of_ne hge fun e => h e.symm
          have hne : ¬ b.toNat = a.toNat := fun e => h e.symm
          simp only [lexLe, if_neg hne]
          exact decide_eq_true hlt

theorem lexLe_trans : ∀ as bs cs : List Char,
    lexLe as bs = true → lexLe bs cs = true → lexLe as cs = true := by
  intro as
  induction as with
  | nil => intro bs cs _ _; rfl
  | cons a as ih =>
    intro bs cs h1 h2
    cases bs with
    | nil => simp [lexLe] at h1
    | cons b bs =>
      cases cs with
      | nil => simp [lexLe] at h2
      | cons c cs =>
        simp only [lexLe] at h1 h2 ⊢
        by_cases hab : a.toNat = b.toNat
        · rw [if_pos hab] at h1
          by_cases hbc : b.toNat = c.toNat
          · rw [if_pos hbc] at h2
            rw [if_pos (hab.trans hbc)]
            exact ih bs cs h1 h2
          · rw [if_neg hbc] at h2
            have hlt : b.toNat < c.toNat := of_decide_eq_true h2
            rw [hab, if_neg hbc]
            exact decide_eq_true hlt
        · rw [if_neg hab] at h1
          have hlt1 : a.toNat < b.toNat := of_decide_eq_true h1
          by_cases hbc : b.toNat = c.toNat
          · have hlt : a.toNat < c.toNat := hbc ▸ hlt1
            rw [if_neg (Nat.ne_of_lt hlt)]
            exact decide_eq_true hlt
          · rw [if_neg hbc] at h2
            have hlt2 : b.toNat < c.toNat := of_decide_eq_true h2
            have hlt : a.toNat < c.toNat := lt_trans hlt1 hlt2
            rw [if_neg (Nat.ne_of_lt hlt)]
            exact decide_eq_true hlt

instance : IsTotal Row newerEq := ⟨fun a b => lexLe_total b.timestamp.data a.timestamp.data⟩

instance : IsTrans Row newerEq :=
  ⟨fun _ _ _ hab hbc => lexLe_trans _ _ _ hbc hab⟩

/-- C9: pages of the paginated listing are sorted newest-first and are
consistent slices of one ordering: over a 5-row store the 2/2/1 pages are
disjoint and concatenate to the `limit = 10` listing, whose prefix of 4
is the first two pages. -/
theorem c9_get_all_requests_pagination (s : List Row) (limit offset : Nat) :
    List.Sorted newerEq (get_all_requests s limit offset) ∧
    (s.length = 5 →
      (get_all_requests s 2 0).length = 2 ∧
      (get_all_requests s 2 2).length = 2 ∧
      (get_all_requests s 2 4).length = 1 ∧
      get_all_requests s 2 0 ++ get_all_requests s 2 2 ++ get_all_requests s 2 4
          = get_all_requests s 10 0 ∧
      get_all_requests s 2 0 ++ get_all_requests s 2 2 = (get_all_requests s 10 0).take 4) ∧
    (s.Nodup → ∀ r ∈ get_all_requests s 2 0, r ∉ get_all_requests s 2 2) := by
  have hperm : (s.insertionSort newerEq).Perm s := List.perm_insertionSort newerEq s
  have hlen : (s.insertionSort newerEq).length = s.length := hperm.length_eq
  have hsorted : List.Sorted newerEq (s.insertionSort newerEq) :=
    List.sorted_insertionSort newerEq s
  refine ⟨?_, fun h5 => ?_, fun hnd => ?_⟩
  · exact List.Pairwise.sublist ((List.take_sublist _ _).trans (List.drop_sublist _ _)) hsorted
  · have hl : (s.insertionSort newerEq).length = 5 := hlen.trans h5
    unfold get_all_requests
    rw [List.drop_zero]
    have htake6 : (s.insertionSort newerEq).take 6 = s.insertionSort newerEq :=
      List.take_of_length_le (by rw [hl]; norm_num)
    have htake10 : (s.insertionSort newerEq).take 10 = s.insertionSort newerEq :=
      List.take_of_length_le (by rw [hl]; norm_num)
    refine ⟨?_, ?_, ?_, ?_, ?_⟩
    · simp [List.length_take, hl]
    · simp [List.length_take, List.length_drop, hl]
    · simp [List.length_take, List.length_drop, hl]
    · rw [← List.take_add, ← List.take_add, htake6, htake10]
    · rw [← List.take_add, htake10]
  · have hnd2 : (s.insertionSort newerEq).Nodup := (List.Perm.nodup_iff hperm).mpr hnd
    intro r hr1 hr2
    unfold get_all_requests at hr1 hr2
    rw [List.drop_zero] at hr1
    have hsplit := List.take_append_drop 2 (s.insertionSort newerEq)
    rw [← hsplit] at hnd2
    have hdisj := (List.nodup_append.mp hnd2).2.2
    exact hdisj hr1 (List.take_subset _ _ hr2)

/-- A sample row with a given id and timestamp. -/
def mkRowTs (n : Nat) (ts : String) : Row :=
  { id := n, task_id := ts, artist := "A", album := "B", username := "u"
    vpn_ip := "ip", status := "pending", timestamp := ts
    slskd_username := none, file_count := 0, completed_files := 0, total_size := 0
    album_directory := none, completed_at := none }

def c9rows : List Row :=
  [mkRowTs 1 "2024-01-01", mkRowTs 2 "2024-01-02", mkRowTs 3 "2024-01-03",
   mkRowTs 4 "2024-01-04", mkRowTs 5 "2024-01-05"]

/-- Witness for C9: the 2/2/1 pages over five concrete rows concatenate to
the full listing and the first page's newest row is absent from the
second page. -/
theorem c9_get_all_requests_pagination_witness :
    (get_all_requests c9rows 2 0).length = 2 ∧
    (get_all_requests c9rows 2 4).length = 1 ∧
    (get_all_requests c9rows 2 0 ++ get_all_requests c9rows 2 2 ++ get_all_requests c9rows 2 4
        = get_all_requests c9rows 10 0) ∧
    mkRowTs 5 "2024-01-05" ∉ get_all_requests c9rows 2 2 := by
  obtain ⟨-, h5, hd⟩ := c9_get_all_requests_pagination c9rows 2 0
  obtain ⟨l1, -, l3, hcat, -⟩ := h5 (by decide)
  exact ⟨l1, l3, hcat, hd (by decide) _ (by decide)⟩

/-- The per-row effect of one orchestration write. -/
def applyRowWrite (r : Row) (tid : String) (w : Write) : Row :=
  if r.task_id = tid then applyUpdate r w.status w.slskd_username w.file_count w.total_size
  else r

/-- The per-row effect of a write sequence. -/
def applyRowWrites (r : Row) (tid : String) (ws : List Write) : Row :=
  ws.foldl (fun r w => applyRowWrite r tid w) r

theorem applyWrite_eq_map (s : List Row) (tid : String) (w : Write) :
    applyWrite s tid w = s.map (fun r => applyRowWrite r tid w) := rfl

theorem applyWrites_eq_map (ws : List Write) (s : List Row) (tid : String) :
    applyWrites s tid ws = s.map (fun r => applyRowWrites r tid ws) := by
  induction ws generalizing s with
  | nil => simp [applyWrites, applyRowWrites]
  | cons w ws ih =>
    have h1 : applyWrites s tid (w :: ws) = applyWrites (applyWrite s tid w) tid ws := rfl
    rw [h1, ih, applyWrite_eq_map, List.map_map]
    rfl

theorem applyRowWrite_dir (r : Row) (tid : String) (w : Write) :
    (applyRowWrite r tid w).album_directory = r.album_directory := by
  unfold applyRowWrite
  by_cases h : r.task_id = tid
  · rw [if_pos h]
    rfl
  · rw [if_neg h]

theorem applyRowWrites_dir (r : Row) (tid : String) (ws : List Write) :
    (applyRowWrites r tid ws).album_directory = r.album_directory := by
  induction ws generalizing r with
  | nil => rfl
  | cons w ws ih =>
    have h1 : applyRowWrites r tid (w :: ws) = applyRowWrites (applyRowWrite r tid w) tid ws := rfl
    rw [h1, ih, applyRowWrite_dir]

theorem applyRowWrites_id_of_ne (r : Row) (tid : String) (ws : List Write)
    (h : r.task_id ≠ tid) : applyRowWrites r tid ws = r := by
  induction ws with
  | nil => rfl
  | cons w ws ih =>
    have h1 : applyRowWrite r tid w = r := by
      unfold applyRowWrite
      rw [if_neg h]
    have h2 : applyRowWrites r tid (w :: ws) = applyRowWrites (applyRowWrite r tid w) tid ws := rfl
    rw [h2, h1, ih]

/-- The store invariant behind C7: a set completion directory implies the
terminal-success status — only `complete_request` sets the directory, and
it sets `status = "completed"` in the same write. -/
theorem reach_directory_inv : ∀ {s : List Row}, Reach s →
    ∀ r ∈ s, r.album_directory ≠ none → r.status = "completed" := by
  intro s hs
  induction hs with
  | init =>
    intro r hr
    exact absurd hr (List.not_mem_nil r)
  | create tid artist album username vpn_ip now hre hcr ih =>
    intro r hr hdir
    unfold create_request at hcr
    split at hcr
    · exact Except.noConfusion hcr
    · simp only [Except.ok.injEq, Prod.mk.injEq] at hcr
      obtain ⟨hs1, -⟩ := hcr
      subst hs1
      rcases List.mem_append.mp hr with hr | hr
      · exact ih r hr hdir
      · simp only [List.mem_singleton] at hr
        subst hr
        exact absurd rfl hdir
  | orch tid sr enq artist album hre hguard ih =>
    intro r hr hdir
    rw [applyWrites_eq_map] at hr
    obtain ⟨r0, hr0, rfl⟩ := List.mem_map.mp hr
    by_cases htid : r0.task_id = tid
    · have hpend := hguard r0 hr0 htid
      have hdirnone : r0.album_directory = none := by
        by_contra hc
        have hcomp := ih r0 hr0 hc
        rw [hcomp] at hpend
        exact absurd hpend (by decide)
      rw [applyRowWrites_dir] at hdir
      exact absurd hdirnone hdir
    · rw [applyRowWrites_id_of_ne r0 tid _ htid] at hdir ⊢
      exact ih r0 hr0 hdir
  | complete tid dir n now hre ih =>
    intro r hr hdir
    simp only [complete_request] at hr
    obtain ⟨r0, hr0, rfl⟩ := List.mem_map.mp hr
    by_cases htid : r0.task_id = tid
    · rw [if_pos htid]
    · rw [if_neg htid] at hdir ⊢
      exact ih r0 hr0 hdir

/-- C7: in every reachable store state a request whose status is one of
the terminal failing statuses has no completion directory. -/
theorem c7_failing_status_no_completion_directory (s : List Row) (hs : Reach s) :
    ∀ r ∈ s, r.status ∈ (["no_results", "no_match", "failed",
        "connection_error", "timeout", "error"] : List String) →
      r.album_directory = none := by
  intro r hr hst
  by_contra hdir
  have hc := reach_directory_inv hs r hr hdir
  rw [hc] at hst
  revert hst
  decide

def c7row : Row :=
  { id := 1, task_id := "t1", artist := "A", album := "B", username := "u"
    vpn_ip := "ip", status := "pending", timestamp := "ts"
    slskd_username := none, file_count := 0, completed_files := 0, total_size := 0
    album_directory := none, completed_at := none }

def c7state : List Row :=
  applyWrites [c7row] "t1"
    (background_download_album (.error .slskdConnectionError) (.ok true) "A" "B")

/-- Witness for C7: after create followed by an orchestration run whose
search raises the connection error, the request sits in the failing
status `connection_error` with no completion directory. -/
theorem c7_failing_status_no_completion_directory_witness :
    ({ c7row with status := "connection_error" } : Row).album_directory = none := by
  have hreach : Reach c7state :=
    Reach.orch "t1" (.error .slskdConnectionError) (.ok true) "A" "B"
      (Reach.create "t1" "A" "B" "u" "ip" "ts" Reach.init rfl) (by decide)
  exact c7_failing_status_no_completion_directory c7state hreach _ (by decide) (by decide)

end Noiseport
